import Mathlib

/-!
Verification of the WaveJumper batch asset pipeline (update_db.py, update.py,
analyze_files.py) against its natural-language specification.

Shallow embedding conventions:
* Python `str` values are modelled as `PyStr := List Char` (a Python string is
  a sequence of code points); Python slicing and `replace` become `List`
  operations.
* Decoded audio samples are modelled as `List ℚ` (exact rationals standing for
  the decoded float samples); `ZeroDivisionError` is modelled by an `Option`
  result, `none` meaning the exception is raised.
* A Python value that may be `None` is an `Option`; a step that may raise is
  wrapped in a further `Option` (`none` = uncaught exception).
* External collaborators (SHA-256, the MP4 tag reader, base64) are modelled as
  input fields of `FileInput`: the hash and raw tag values a file presents.
-/

/-- Python strings as sequences of code points. -/
abbrev PyStr := List Char

/-- Python slice `s[-n:]`: the last `n` characters, or the whole string when it
is shorter than `n`. -/
def pySliceLast (n : ℕ) (s : PyStr) : PyStr := s.drop (s.length - n)

/-- Python slice `s[:-n]`: drop the last `n` characters, empty when the string
is shorter than `n`. -/
def pyDropLast (n : ℕ) (s : PyStr) : PyStr := s.take (s.length - n)

/-- Python `s.replace(c, "")` for a single-character pattern: remove every
occurrence of `c`. -/
def removeChar (c : Char) (s : PyStr) : PyStr := s.filter (fun a => a ≠ c)

/-- Python whitespace characters recognised by `str.strip()` (ASCII range). -/
def pyIsSpace (c : Char) : Bool :=
  c == ' ' || c == '\t' || c == '\n' || c == '\x0d' || c == '\x0b' || c == '\x0c'

/-- Python truthiness of `line.strip()`: the line contains a non-whitespace
character. -/
def lineNonBlank (l : PyStr) : Bool := l.any (fun c => ! pyIsSpace c)

/-- Embeds `extract_date_from_title` (update_db.py lines 78-84, update.py
lines 73-77, analyze_files.py lines 103-107, all textually identical):
`if not title: return None` (absent or empty title gives `None`), otherwise
`title[-12:].replace("(", "").replace(")", "")`. -/
def extract_date_from_title (title : Option PyStr) : Option PyStr :=
  match title with
  | none => none
  | some t => if t = [] then none else some (removeChar ')' (removeChar '(' (pySliceLast 12 t)))

/-- Embeds the title trimming of update_db.py line 169: `title = title[:-13]`
with no guard. The outer `Option` is the exception monad: input `none`
(absent title) makes Python evaluate `None[:-13]`, raising `TypeError`,
modelled as result `none`; otherwise the trimmed title is returned. -/
def trim_title_db (title : Option PyStr) : Option (Option PyStr) :=
  match title with
  | none => none
  | some t => some (some (pyDropLast 13 t))

/-- Embeds the title trimming of update.py line 100 and analyze_files.py line
265: `title = title[:-13] if title else None`. Absent or empty title gives
`None`; otherwise the last 13 characters are dropped. No exception possible. -/
def trim_title_update (title : Option PyStr) : Option PyStr :=
  match title with
  | none => none
  | some t => if t = [] then none else some (pyDropLast 13 t)

/-- Python `comment.split("\r\n")`: split a character sequence on the literal
two-character CRLF separator, scanning left to right. -/
def splitCRLF : PyStr → List PyStr
  | [] => [[]]
  | '\x0d' :: '\n' :: rest => [] :: splitCRLF rest
  | c :: rest =>
    match splitCRLF rest with
    | [] => [[c]]
    | h :: t => (c :: h) :: t

/-- The paragraph wrapper of the f-string `f"<p>{line}</p>\n"`. -/
def wrapParagraph (l : PyStr) : PyStr :=
  ('<' :: 'p' :: '>' :: l) ++ ['<', '/', 'p', '>', '\n']

/-- Embeds `wrap_comment_in_paragraphs` (analyze_files.py lines 255-259):
`if not comment: return comment` (absent or empty returned unchanged),
otherwise join `<p>{line}</p>\n` over the lines of `comment.split("\r\n")`
whose `strip()` is truthy. -/
def wrap_comment_in_paragraphs (comment : Option PyStr) : Option PyStr :=
  match comment with
  | none => none
  | some c =>
    if c = [] then some c
    else some (List.flatten (((splitCRLF c).filter lineNonBlank).map wrapParagraph))

/-- Modelled from the spec (section 4.2), for refinement comparison with the
source: "split on literal line-break sequences, drop blank lines, wrap each
remaining line in a paragraph marker, concatenate. Absent/empty comment ⇒
unchanged (no markers)." -/
def comment_reflow_spec (comment : Option PyStr) : Option PyStr :=
  match comment with
  | none => none
  | some c =>
    if c = [] then some c
    else some (List.flatten (((splitCRLF c).filter lineNonBlank).map wrapParagraph))

/-- The comment stored by the analyze_files.py variant (line 261):
`comment = wrap_comment_in_paragraphs(comment)`. -/
def stored_comment_analyze (comment : Option PyStr) : Option PyStr :=
  wrap_comment_in_paragraphs comment

/-- The comment stored by the update.py variant (lines 96 and 108): the raw
tag value is appended to the track row unchanged, no reflow exists there. -/
def stored_comment_update (comment : Option PyStr) : Option PyStr := comment

/-- The comment stored by the update_db.py variant (lines 165 and 171): the
raw tag value is passed to `update_or_insert_file` unchanged. -/
def stored_comment_update_db (comment : Option PyStr) : Option PyStr := comment

/-- Python `max(l)` over a nonempty list of floats, modelled on rationals;
the `[]` case is unreachable at every call site (guarded) and yields `0`. -/
def listMax : List ℚ → ℚ
  | [] => 0
  | a :: t => t.foldl max a

/-- Embeds the body of the bin loop (update_db.py line 66):
`float(np.max(np.abs(bin_slice))) if len(bin_slice) > 0 else 0.0`. -/
def binPeak (s : List ℚ) : ℚ :=
  if 0 < s.length then listMax (s.map (fun a => |a|)) else 0

/-- Embeds the slice `y[start:end]` of update_db.py lines 63-65 with
`start = i * samples_per_bin`, `end = start + samples_per_bin`,
`samples_per_bin = total_samples // target_length`. -/
def binSlice (y : List ℚ) (target_length i : ℕ) : List ℚ :=
  (y.drop (i * (y.length / target_length))).take (y.length / target_length)

/-- Embeds the bin loop of update_db.py lines 61-67 (identically update.py
lines 55-62 and analyze_files.py lines 209-216): one peak per `i` in
`range(target_length)`. -/
def computeBins (y : List ℚ) (target_length : ℕ) : List ℚ :=
  (List.range target_length).map (fun i => binPeak (binSlice y target_length i))

/-- Embeds `compute_waveform` (update_db.py lines 50-76, update.py lines
49-71) and `compute_amplitudeData` (analyze_files.py lines 203-228, identical
but for `target_length = 200` and the extra duration return), after the
external decode: `y` is the decoded mono sample sequence.
`max_peak = max(waveform) if waveform else 1.0` guards only an empty bin
list; the division `amp / max_peak` raises `ZeroDivisionError` when
`max_peak` is `0.0`, modelled as result `none`. -/
def compute_waveform (y : List ℚ) (target_length : ℕ) : Option (List ℚ) :=
  let waveform := computeBins y target_length
  let max_peak := if waveform = [] then (1 : ℚ) else listMax waveform
  if max_peak = 0 then none
  else some (waveform.map (fun amp => amp / max_peak))

lemma le_foldl_max_init (t : List ℚ) : ∀ a : ℚ, a ≤ t.foldl max a := by
  induction t with
  | nil => intro a; exact le_refl a
  | cons b t ih =>
    intro a
    exact le_trans (le_max_left a b) (ih (max a b))

lemma le_foldl_max_mem (t : List ℚ) : ∀ (a x : ℚ), x ∈ t → x ≤ t.foldl max a := by
  induction t with
  | nil => intro a x hx; cases hx
  | cons b t ih =>
    intro a x hx
    rcases List.mem_cons.mp hx with h | h
    · subst h
      exact le_trans (le_max_right a x) (le_foldl_max_init t (max a x))
    · exact ih (max a b) x h

lemma foldl_max_mem (t : List ℚ) : ∀ a : ℚ, t.foldl max a = a ∨ t.foldl max a ∈ t := by
  induction t with
  | nil => intro a; exact Or.inl rfl
  | cons b t ih =>
    intro a
    rcases ih (max a b) with h | h
    · rcases max_choice a b with hm | hm
      · exact Or.inl (by rw [List.foldl_cons, h, hm])
      · exact Or.inr (by rw [List.foldl_cons, h, hm]; exact List.mem_cons_self b t)
    · exact Or.inr (List.mem_cons_of_mem b h)

lemma le_listMax {l : List ℚ} {x : ℚ} (hx : x ∈ l) : x ≤ listMax l := by
  cases l with
  | nil => cases hx
  | cons a t =>
    rcases List.mem_cons.mp hx with h | h
    · subst h; exact le_foldl_max_init t x
    · exact le_foldl_max_mem t a x h

lemma listMax_mem {l : List ℚ} (h : l ≠ []) : listMax l ∈ l := by
  cases l with
  | nil => exact absurd rfl h
  | cons a t =>
    rcases foldl_max_mem t a with h' | h'
    · rw [listMax, h']; exact List.mem_cons_self a t
    · exact List.mem_cons_of_mem a h'

lemma listMax_eq_zero {l : List ℚ} (hne : l ≠ []) (h0 : ∀ x ∈ l, x = 0) :
    listMax l = 0 :=
  h0 _ (listMax_mem hne)

lemma computeBins_length (y : List ℚ) (L : ℕ) : (computeBins y L).length = L := by
  simp [computeBins]

lemma computeBins_ne_nil (y : List ℚ) {L : ℕ} (hL : 0 < L) : computeBins y L ≠ [] := by
  intro h
  have := computeBins_length y L
  rw [h] at this
  simp at this
  omega

lemma mem_binSlice_mem (y : List ℚ) (L i : ℕ) {x : ℚ} (hx : x ∈ binSlice y L i) : x ∈ y :=
  List.drop_subset _ _ (List.take_subset _ _ hx)

lemma binPeak_le (s : List ℚ) (hs : s ≠ []) : ∀ x ∈ s, |x| ≤ binPeak s := by
  intro x hx
  rw [binPeak, if_pos (List.length_pos.mpr hs)]
  exact le_listMax (List.mem_map_of_mem _ hx)

lemma binPeak_attained (s : List ℚ) (hs : s ≠ []) : ∃ x ∈ s, |x| = binPeak s := by
  rw [binPeak, if_pos (List.length_pos.mpr hs)]
  have hm : listMax (s.map fun a => |a|) ∈ s.map (fun a => |a|) :=
    listMax_mem (by simpa using hs)
  rcases List.mem_map.mp hm with ⟨a, ha, hae⟩
  exact ⟨a, ha, hae⟩

lemma binPeak_nonneg (s : List ℚ) : 0 ≤ binPeak s := by
  by_cases hs : s = []
  · subst hs; simp [binPeak]
  · rcases binPeak_attained s hs with ⟨x, _, hx⟩
    rw [← hx]
    exact abs_nonneg x

lemma binPeak_zero_of_zero (s : List ℚ) (h : ∀ x ∈ s, x = 0) : binPeak s = 0 := by
  by_cases hs : s = []
  · subst hs; simp [binPeak]
  · rcases binPeak_attained s hs with ⟨x, hx, he⟩
    rw [← he, h x hx, abs_zero]

lemma mem_computeBins_nonneg (y : List ℚ) (L : ℕ) : ∀ b ∈ computeBins y L, 0 ≤ b := by
  intro b hb
  rcases List.mem_map.mp hb with ⟨i, _, hi⟩
  rw [← hi]
  exact binPeak_nonneg _

lemma compute_waveform_silent (y : List ℚ) (L : ℕ) (hL : 0 < L)
    (h : ∀ s ∈ y, s = 0) : compute_waveform y L = none := by
  have hne := computeBins_ne_nil y hL
  have hz : listMax (computeBins y L) = 0 := by
    refine listMax_eq_zero hne ?_
    intro x hx
    rcases List.mem_map.mp hx with ⟨i, _, hi⟩
    rw [← hi]
    exact binPeak_zero_of_zero _ (fun a ha => h a (mem_binSlice_mem y L i ha))
  simp [compute_waveform, hne, hz]

lemma compute_waveform_degenerate (y : List ℚ) (L : ℕ) (hL : 0 < L)
    (hshort : y.length < L) : compute_waveform y L = none := by
  have hne := computeBins_ne_nil y hL
  have hspb : y.length / L = 0 := (Nat.div_eq_zero_iff hL).mpr hshort
  have hz : listMax (computeBins y L) = 0 := by
    refine listMax_eq_zero hne ?_
    intro x hx
    rcases List.mem_map.mp hx with ⟨i, _, hi⟩
    rw [← hi]
    have : binSlice y L i = [] := by simp [binSlice, hspb]
    rw [this]
    simp [binPeak]
  simp [compute_waveform, hne, hz]

/-- Claim C1: the spec says an all-zero global maximum is replaced by `1.0`
(a defined no-op) so that silent or degenerate input yields an all-zero
envelope and no division error. In the code the `else 1.0` branch of
`max_peak = max(waveform) if waveform else 1.0` guards only an empty bin
list (impossible for the configured target lengths), not a zero maximum:
for the all-silent decoded input `[0.0]` (and for any input shorter than
the target length, here also shown for `[1.0]`), `max_peak` is `0.0` and
`amp / max_peak` raises `ZeroDivisionError`, modelled as `none`. -/
theorem C1_silent_input_raises :
    compute_waveform [(0 : ℚ)] 1000 = none ∧ compute_waveform [(1 : ℚ)] 1000 = none :=
  ⟨compute_waveform_silent _ _ (by norm_num) (by intro s hs; simpa using hs),
   compute_waveform_degenerate _ _ (by norm_num) (by simp)⟩

lemma flatten_slices (y : List ℚ) (spb : ℕ) :
    ∀ n : ℕ, ((List.range n).map (fun i => (y.drop (i * spb)).take spb)).flatten =
      y.take (n * spb) := by
  intro n
  induction n with
  | zero => simp
  | succ n ih =>
    rw [List.range_succ, List.map_append, List.flatten_append, ih]
    simp only [List.map_cons, List.map_nil, List.flatten_cons, List.flatten_nil,
      List.append_nil]
    rw [Nat.succ_mul, List.take_add]

lemma binSlice_length (y : List ℚ) (L i : ℕ) (hi : i < L) :
    (binSlice y L i).length = y.length / L := by
  have h2 : L * (y.length / L) ≤ y.length := by
    rw [mul_comm]
    exact Nat.div_mul_le_self y.length L
  have h1 : (i + 1) * (y.length / L) ≤ L * (y.length / L) :=
    Nat.mul_le_mul_right _ hi
  have h3 : (i + 1) * (y.length / L) ≤ y.length := le_trans h1 h2
  rw [Nat.succ_mul] at h3
  simp only [binSlice, List.length_take, List.length_drop]
  exact Nat.min_eq_left (Nat.le_sub_of_add_le (by rw [Nat.add_comm] at h3; exact h3))

lemma binSlice_eq_nil_iff (y : List ℚ) (L i : ℕ) (hi : i < L) :
    binSlice y L i = [] ↔ y.length < L := by
  have hL : 0 < L := lt_of_le_of_lt (Nat.zero_le i) hi
  rw [← List.length_eq_zero, binSlice_length y L i hi, Nat.div_eq_zero_iff hL]

lemma computeBins_getD (y : List ℚ) (L i : ℕ) (hi : i < L) :
    (computeBins y L).getD i 0 = binPeak (binSlice y L i) := by
  simp [computeBins, List.getD, List.getElem?_map, List.getElem?_range hi]

/-- Claim C5: for every decoded sample sequence `y` and target length `L`,
the loop produces exactly `L` bins; with `spb = ⌊y.length / L⌋`, the bin
slices are contiguous and concatenate to the first `L * spb` samples (the
trailing remainder is dropped); each slice has exactly `spb` samples; a bin's
slice is empty exactly when the input has fewer samples than `L`; an empty
bin gets peak `0`; a nonempty bin gets the peak absolute amplitude of its
samples (an upper bound on `|s|` that is attained). -/
theorem C5_binning (y : List ℚ) (L : ℕ) :
    (computeBins y L).length = L ∧
    ((List.range L).map (fun i => binSlice y L i)).flatten =
      y.take (L * (y.length / L)) ∧
    (∀ i, i < L → (binSlice y L i).length = y.length / L) ∧
    (∀ i, i < L → (binSlice y L i = [] ↔ y.length < L)) ∧
    (∀ i, i < L → binSlice y L i = [] → (computeBins y L).getD i 0 = 0) ∧
    (∀ i, i < L → binSlice y L i ≠ [] →
      ((∀ s ∈ binSlice y L i, |s| ≤ (computeBins y L).getD i 0) ∧
       (∃ s ∈ binSlice y L i, |s| = (computeBins y L).getD i 0))) := by
  refine ⟨computeBins_length y L, ?_, ?_, ?_, ?_, ?_⟩
  · simpa only [binSlice] using flatten_slices y (y.length / L) L
  · intro i hi
    exact binSlice_length y L i hi
  · intro i hi
    exact binSlice_eq_nil_iff y L i hi
  · intro i hi he
    rw [computeBins_getD y L i hi, he]
    simp [binPeak]
  · intro i hi hne
    rw [computeBins_getD y L i hi]
    exact ⟨binPeak_le _ hne, binPeak_attained _ hne⟩

/-- Witness for C5 at the concrete input `y = [1, 2, 3]`, `L = 2`
(so `spb = 1` and the trailing sample `3` is dropped). -/
theorem C5_binning_witness :
    (binSlice [(1 : ℚ), 2, 3] 2 1).length = ([(1 : ℚ), 2, 3]).length / 2 ∧
    (binSlice [(1 : ℚ), 2, 3] 2 1 = [] ↔ ([(1 : ℚ), 2, 3]).length < 2) ∧
    (∀ s ∈ binSlice [(1 : ℚ), 2, 3] 2 1,
      |s| ≤ (computeBins [(1 : ℚ), 2, 3] 2).getD 1 0) :=
  ⟨(C5_binning [1, 2, 3] 2).2.2.1 1 (by decide),
   (C5_binning [1, 2, 3] 2).2.2.2.1 1 (by decide),
   ((C5_binning [1, 2, 3] 2).2.2.2.2.2 1 (by decide) (by decide)).1⟩

/-- Claim C6: whenever the extractor returns a waveform (the successfully
processed case) for a positive target length (the configured lengths are
200 and 1000), the waveform has length exactly the target length, every
element lies in `[0, 1]`, and at least one element equals exactly `1`
whenever any input sample is non-silent. -/
theorem C6_waveform_shape (y : List ℚ) (L : ℕ) (hL : 0 < L) (w : List ℚ)
    (hw : compute_waveform y L = some w) :
    w.length = L ∧ (∀ x ∈ w, 0 ≤ x ∧ x ≤ 1) ∧
    ((∃ s ∈ y, s ≠ 0) → ∃ x ∈ w, x = 1) := by
  have hne := computeBins_ne_nil y hL
  simp only [compute_waveform, if_neg hne] at hw
  by_cases hM : listMax (computeBins y L) = 0
  · rw [if_pos hM] at hw
    cases hw
  · rw [if_neg hM] at hw
    have hw' : w = (computeBins y L).map (fun amp => amp / listMax (computeBins y L)) :=
      (Option.some.inj hw).symm
    have hMnn : 0 ≤ listMax (computeBins y L) :=
      mem_computeBins_nonneg y L _ (listMax_mem hne)
    have hMpos : 0 < listMax (computeBins y L) := lt_of_le_of_ne hMnn (Ne.symm hM)
    refine ⟨?_, ?_, ?_⟩
    · rw [hw', List.length_map, computeBins_length]
    · intro x hx
      rw [hw'] at hx
      rcases List.mem_map.mp hx with ⟨amp, hamp, he⟩
      rw [← he]
      constructor
      · exact div_nonneg (mem_computeBins_nonneg y L amp hamp) hMnn
      · exact (div_le_one hMpos).mpr (le_listMax hamp)
    · intro _
      refine ⟨listMax (computeBins y L) / listMax (computeBins y L), ?_, div_self hM⟩
      rw [hw']
      exact List.mem_map_of_mem _ (listMax_mem hne)

/-- Witness for C6 at the concrete decoded input `[1]` with target length 1,
where the extractor returns `some [1]`. -/
theorem C6_waveform_shape_witness :
    ([(1 : ℚ)]).length = 1 ∧ (∀ x ∈ [(1 : ℚ)], 0 ≤ x ∧ x ≤ 1) ∧
    ((∃ s ∈ [(1 : ℚ)], s ≠ 0) → ∃ x ∈ [(1 : ℚ)], x = 1) :=
  C6_waveform_shape [1] 1 (by decide) [1] (by
    have h : computeBins [(1 : ℚ)] 1 = [1] := by
      norm_num [computeBins, List.range_succ, List.range_zero, binSlice, binPeak, listMax]
    simp [compute_waveform, h, listMax])

/-- Claim C4: the spec says an absent raw title yields an absent display
title and absent date without error in every variant. The date side and the
guarded variants hold (`extract_date_from_title None = None`,
`title[:-13] if title else None` gives `None`), but update_db.py line 169
runs `title[:-13]` unguarded: for an absent title Python evaluates
`None[:-13]` and raises `TypeError` (the outer `none` below), so the
update_db variant errors instead of producing an absent title. -/
theorem C4_absent_title_raises :
    trim_title_db none = none ∧ trim_title_update none = none ∧
    extract_date_from_title none = none :=
  ⟨rfl, rfl, rfl⟩

/-- Claim C7 (amended to non-empty titles): for every present, non-empty raw
title, date extraction returns the last 12 characters with all parentheses
removed, and title trimming drops the last 13 characters (in both the
unguarded update_db form and the guarded update.py form). The original
claim fails on the present-but-empty title, which `if not title` treats as
absent (see the counterexample). -/
theorem C7_title_date (s : PyStr) (hs : s ≠ []) :
    extract_date_from_title (some s) =
      some (removeChar ')' (removeChar '(' (pySliceLast 12 s))) ∧
    trim_title_db (some s) = some (some (pyDropLast 13 s)) ∧
    trim_title_update (some s) = some (pyDropLast 13 s) := by
  refine ⟨?_, rfl, ?_⟩ <;> simp [extract_date_from_title, trim_title_update, hs]

/-- Witness for C7 at the spec's own example: raw title
`"Song Name (2024-01-01)"` gives date `"2024-01-01"` and trimmed title
`"Song Name"`. -/
theorem C7_title_date_witness :
    extract_date_from_title (some ("Song Name (2024-01-01)".data)) =
      some ("2024-01-01".data) ∧
    trim_title_update (some ("Song Name (2024-01-01)".data)) =
      some ("Song Name".data) := by
  have h := C7_title_date ("Song Name (2024-01-01)".data) (by decide)
  refine ⟨?_, ?_⟩
  · rw [h.1]
    decide
  · rw [h.2.2]
    decide

/-- Counterexample for C7 as stated: the empty string is a present raw title,
and the claim demands its trimmed form `""`; the code's `if title else None`
treats it as absent and returns `None` instead. -/
theorem C7_empty_title_cex :
    trim_title_update (some ([] : PyStr)) ≠ some (pyDropLast 13 []) := by
  decide

/-- Claim C9 (amended): only the analyze_files.py variant stores the reflowed
comment, and its reflow agrees with the spec's description (split on CRLF,
drop blank lines, wrap each remaining line in `<p>...</p>\n`, concatenate,
absent or empty unchanged); the update.py and update_db.py variants store the
raw comment tag unchanged, with no reflow at all. -/
theorem C9_comment_reflow (c : Option PyStr) :
    stored_comment_analyze c = comment_reflow_spec c ∧
    stored_comment_update c = c ∧
    stored_comment_update_db c = c :=
  ⟨rfl, rfl, rfl⟩

/-- Counterexample for C9 as stated: for the raw two-line comment `"a\r\nb"`
the update.py variant stores the raw text, not the reflowed
`"<p>a</p>\n<p>b</p>\n"` the claim demands for every processed file. -/
theorem C9_raw_comment_cex :
    stored_comment_update (some ('a' :: '\x0d' :: '\n' :: 'b' :: [])) ≠
      comment_reflow_spec (some ('a' :: '\x0d' :: '\n' :: 'b' :: [])) := by
  decide

/-- Claim C10 (amended to non-empty titles): for every present, non-empty
raw title shorter than 12 characters, `title[-12:]` is the whole title, so
date extraction returns the entire title with all parentheses removed and
never raises. The original claim also covers the empty title, on which the
code returns an absent date instead (see the counterexample). -/
theorem C10_short_title (s : PyStr) (hne : s ≠ []) (hlen : s.length < 12) :
    extract_date_from_title (some s) = some (removeChar ')' (removeChar '(' s)) := by
  have h : pySliceLast 12 s = s := by
    simp [pySliceLast, Nat.sub_eq_zero_of_le (le_of_lt hlen)]
  simp [extract_date_from_title, hne, h]

/-- Witness for C10 at the short malformed title `"(2024)"` (6 characters),
which becomes the date `"2024"` verbatim minus parentheses. -/
theorem C10_short_title_witness :
    extract_date_from_title (some ("(2024)".data)) = some ("2024".data) := by
  have h := C10_short_title ("(2024)".data) (by decide) (by decide)
  rw [h]
  decide

/-- Counterexample for C10 as stated: the empty string is a present title
shorter than 12 characters, yet date extraction returns an absent date for
it (`if not title` treats it as absent), not the title verbatim. -/
theorem C10_empty_title_cex :
    extract_date_from_title (some ([] : PyStr)) = none := by
  decide

/-- The external-collaborator and store actions a file incurs during the
per-file loop of update_db.py `main` (lines 153-171), in source order:
SHA-256 hashing (line 155), MP4 tag reading (lines 159-165), audio decode
plus waveform computation (line 166), cover processing (line 167), and an
executed database write with commit (inside `update_or_insert_file`). -/
inductive FileAction
  | hashFile
  | tagRead
  | decodeAudio
  | coverRead
  | dbWrite
  deriving DecidableEq

/-- One on-disk audio file as the pipeline observes it: its name, the
content hash the fingerprint engine computes from its bytes, the decoded
mono sample sequence, the four raw text tags, and the base64 cover the
cover processor would produce (external collaborators modelled as inputs). -/
structure FileInput where
  filename : PyStr
  contentHash : PyStr
  samples : List ℚ
  artist : Option PyStr
  title : Option PyStr
  genre : Option PyStr
  comment : Option PyStr
  cover : Option PyStr
  deriving DecidableEq

/-- One row of the `tracks` table of update_db.py (lines 89-101):
filename (unique key), the normalized text fields, the waveform (standing
for `waveform_json`), the cover (standing for `cover_base64`), and the
content hash. -/
structure Row where
  filename : PyStr
  artist : Option PyStr
  title : Option PyStr
  date : Option PyStr
  genre : Option PyStr
  comment : Option PyStr
  waveform : List ℚ
  cover : Option PyStr
  fileHash : PyStr
  deriving DecidableEq

/-- Embeds `update_or_insert_file` (update_db.py lines 118-138): look up the
row with this filename; if present with an identical hash, skip (table
unchanged, nothing written); if present with a different hash, update that
row in place; if absent, insert. The Bool reports whether a write (UPDATE or
INSERT) was executed. -/
def update_or_insert_file (db : List Row) (r : Row) : List Row × Bool :=
  match db.find? (fun q => q.filename = r.filename) with
  | some q =>
    if q.fileHash = r.fileHash then (db, false)
    else (db.map (fun q2 => if q2.filename = r.filename then r else q2), true)
  | none => (db ++ [r], true)


/-- Embeds the body of the per-file loop of update_db.py `main` (lines
153-171). There is no try/except around it: an exception anywhere in the
body is uncaught and propagates out of `main` (result `none`, via
`Option.bind` as the exception-propagation monad); the two in-source failure
points are the `ZeroDivisionError` inside `compute_waveform` and the
`TypeError` at `title[:-13]` for an absent title. On success it returns the
updated table and the trace of actions the file incurred, in source order:
hash (line 155), tag read (159-165), audio decode + waveform (166), cover
(167), and the database write when one is executed (171). -/
def processFile_db (db : List Row) (f : FileInput) : Option (List Row × List FileAction) :=
  (compute_waveform f.samples 1000).bind (fun wf =>
    (trim_title_db f.title).bind (fun title2 =>
      let date := extract_date_from_title f.title
      let r : Row :=
        { filename := f.filename, artist := f.artist, title := title2,
          date := date, genre := f.genre, comment := f.comment,
          waveform := wf, cover := f.cover, fileHash := f.contentHash }
      let res := update_or_insert_file db r
      some (res.1,
        [FileAction.hashFile, FileAction.tagRead, FileAction.decodeAudio,
          FileAction.coverRead] ++ if res.2 then [FileAction.dbWrite] else [])))

/-- The per-file loop of update_db.py `main` over a list of files: each file
is processed in turn against the evolving table; the first uncaught
exception terminates the whole run (result `none`), leaving later files
unprocessed. -/
def run_db : List FileInput → List Row → List FileAction → Option (List Row × List FileAction)
  | [], db, acts => some (db, acts)
  | f :: rest, db, acts =>
    (processFile_db db f).bind (fun p => run_db rest p.1 (acts ++ p.2))

lemma foldl_max_replicate (v : ℚ) : ∀ n, (List.replicate n v).foldl max v = v := by
  intro n
  induction n with
  | zero => rfl
  | succ n ih =>
    rw [List.replicate_succ, List.foldl_cons, max_self]
    exact ih

lemma compute_waveform_replicate (L : ℕ) (hL : 0 < L) (a : ℚ) (ha : a ≠ 0) :
    compute_waveform (List.replicate L a) L = some (List.replicate L 1) := by
  have hlen : (List.replicate L a).length = L := List.length_replicate L a
  have hspb : (List.replicate L a).length / L = 1 := by
    rw [hlen]
    exact Nat.div_self hL
  have hslice : ∀ i < L, binSlice (List.replicate L a) L i = [a] := by
    intro i hi
    rw [binSlice, hspb, mul_one, List.drop_replicate, List.take_replicate]
    have hm : min 1 (L - i) = 1 := Nat.min_eq_left (by omega)
    rw [hm, List.replicate_one]
  have habs : |a| ≠ 0 := abs_ne_zero.mpr ha
  have hbins : computeBins (List.replicate L a) L = List.replicate L |a| := by
    rw [computeBins, List.eq_replicate_iff]
    constructor
    · simp
    · intro b hb
      rcases List.mem_map.mp hb with ⟨i, hi, he⟩
      rw [← he, hslice i (List.mem_range.mp hi)]
      simp [binPeak, listMax]
  have hne : List.replicate L |a| ≠ [] := by
    intro h
    have := congrArg List.length h
    simp at this
    omega
  have hmax : listMax (List.replicate L |a|) = |a| := by
    cases L with
    | zero => omega
    | succ n =>
      rw [List.replicate_succ, listMax, foldl_max_replicate]
  simp only [compute_waveform, hbins]
  rw [if_neg hne, hmax, if_neg habs, List.map_replicate, div_self habs]

/-- A decodable file whose audio is all-silent: its per-file processing hits
the `ZeroDivisionError` of `compute_waveform` (see C1). -/
def fileSilent : FileInput :=
  { filename := "bad.m4a".data, contentHash := "h1".data, samples := [0],
    artist := none, title := some ("T (2024-01-01)".data), genre := none,
    comment := none, cover := none }

/-- A well-formed file (1000 non-silent samples, present title) whose
per-file processing succeeds. -/
def fileLoud : FileInput :=
  { filename := "good.m4a".data, contentHash := "h2".data,
    samples := List.replicate 1000 1, artist := none,
    title := some ("U (2024-01-01)".data), genre := none, comment := none,
    cover := none }

lemma fileSilent_fails (db : List Row) : processFile_db db fileSilent = none := by
  have h : compute_waveform fileSilent.samples 1000 = none := by
    refine compute_waveform_silent _ _ (by norm_num) ?_
    intro s hs
    simpa [fileSilent] using hs
  unfold processFile_db
  rw [h, Option.none_bind]

lemma fileLoud_waveform :
    compute_waveform fileLoud.samples 1000 = some (List.replicate 1000 1) :=
  compute_waveform_replicate 1000 (by norm_num) 1 one_ne_zero

lemma fileLoud_trim :
    trim_title_db fileLoud.title = some (some (pyDropLast 13 ("U (2024-01-01)".data))) :=
  rfl

lemma fileLoud_succeeds (db : List Row) : processFile_db db fileLoud ≠ none := by
  unfold processFile_db
  rw [fileLoud_waveform, Option.some_bind, fileLoud_trim, Option.some_bind]
  exact fun hc => Option.noConfusion hc

/-- Claim C2 (amended): per-file errors are not caught at the per-file
boundary. If the run reaches a file whose processing raises (any of the
per-file failures), the exception is uncaught inside `main` — it is logged
only by the global `sys.excepthook` handler, without a per-file skip — and
terminates the run, so the remaining files are never processed. -/
theorem C2_error_aborts_run (pre : List FileInput) (f : FileInput)
    (post : List FileInput) (db : List Row) (acts : List FileAction)
    (db2 : List Row) (acts2 : List FileAction)
    (hpre : run_db pre db acts = some (db2, acts2))
    (hf : processFile_db db2 f = none) :
    run_db (pre ++ f :: post) db acts = none := by
  induction pre generalizing db acts with
  | nil =>
    simp only [run_db, Option.some.injEq, Prod.mk.injEq] at hpre
    rw [List.nil_append, run_db, hpre.1, hf, Option.none_bind]
  | cons g pre ih =>
    simp only [run_db] at hpre
    rw [List.cons_append, run_db]
    cases hg : processFile_db db g with
    | none =>
      rw [Option.none_bind]
    | some p =>
      rw [hg, Option.some_bind] at hpre
      rw [Option.some_bind]
      exact ih p.1 (acts ++ p.2) hpre

/-- Witness for the amended C2: the silent file aborts a run that still had
the processable `fileLoud` queued behind it. -/
theorem C2_error_aborts_run_witness :
    run_db ([] ++ fileSilent :: [fileLoud]) [] [] = none :=
  C2_error_aborts_run [] fileSilent [fileLoud] [] [] [] [] rfl (fileSilent_fails [])

/-- Counterexample for C2 as stated: a per-file failure (the silent file) is
not caught and skipped — the whole batch run aborts (`none`) and the
remaining file is never processed, even though it would process successfully
on its own. -/
theorem C2_abort_cex :
    run_db [fileSilent, fileLoud] [] [] = none ∧
    processFile_db [] fileLoud ≠ none := by
  constructor
  · rw [run_db, fileSilent_fails [], Option.none_bind]
  · exact fileLoud_succeeds []

/-- The row previously stored under `fileLoud`'s filename with an identical
content hash: the `UNCHANGED` scenario of the change-set resolver. -/
def rowStored : Row :=
  { filename := "good.m4a".data, artist := none, title := none, date := none,
    genre := none, comment := none, waveform := [], cover := none,
    fileHash := "h2".data }

/-- Claim C3: for an `UNCHANGED` file (stored hash equals the newly computed
hash) no record is rewritten — the table comes back unchanged and no
database write appears in the trace — but the hash comparison does NOT
short-circuit the expensive work: the per-file loop of update_db.py `main`
reads the tags, decodes the audio and computes the waveform, and processes
the cover BEFORE `update_or_insert_file` ever compares hashes, so the trace
of an unchanged file still contains the tag read, the audio decode and the
cover work, contradicting the claimed zero cost beyond hashing. -/
theorem C3_unchanged_file_still_decodes :
    processFile_db [rowStored] fileLoud =
      some ([rowStored],
        [FileAction.hashFile, FileAction.tagRead, FileAction.decodeAudio,
         FileAction.coverRead]) ∧
    FileAction.decodeAudio ∈
      [FileAction.hashFile, FileAction.tagRead, FileAction.decodeAudio,
       FileAction.coverRead] := by
  constructor
  · unfold processFile_db
    rw [fileLoud_waveform]
    rfl
  · decide

/-- Embeds update.py line 115 (identically analyze_files.py line 281):
`tracks.sort(key=lambda x: x[0], reverse=True)` — the flat embeddable-data
sink emits rows in filename-descending order. Python's stable `list.sort`
is modelled by insertion sort; only its sortedness and permutation
properties are relied upon. -/
def finalize_flat (ts : List Row) : List Row :=
  List.insertionSort (fun a b => b.filename ≤ a.filename) ts

/-- Embeds update_db.py lines 174-176: the table is rebuilt as
`SELECT * FROM tracks ORDER BY filename` (ascending) and swapped in — the
relational sink ends sorted by filename ascending. -/
def finalize_db (ts : List Row) : List Row :=
  List.insertionSort (fun a b => a.filename ≤ b.filename) ts

instance rowDescTotal : IsTotal Row (fun a b => b.filename ≤ a.filename) :=
  ⟨fun a b => le_total b.filename a.filename⟩

instance rowDescTrans : IsTrans Row (fun a b => b.filename ≤ a.filename) :=
  ⟨fun _ _ _ h1 h2 => le_trans h2 h1⟩

instance rowAscTotal : IsTotal Row (fun a b => a.filename ≤ b.filename) :=
  ⟨fun a b => le_total a.filename b.filename⟩

instance rowAscTrans : IsTrans Row (fun a b => a.filename ≤ b.filename) :=
  ⟨fun _ _ _ h1 h2 => le_trans h1 h2⟩

/-- Claim C8: at finalize time the emitted records are strictly ordered by
filename per the configured direction of the backend — lexicographically
descending for the flat embeddable-data sink, ascending for the relational
sink — whenever the stored filenames are pairwise distinct (the sinks'
uniqueness invariant on the `filename` key). -/
theorem C8_finalize_order (ts : List Row) (h : (ts.map Row.filename).Nodup) :
    ((finalize_flat ts).map Row.filename).Pairwise (fun a b => b < a) ∧
    ((finalize_db ts).map Row.filename).Pairwise (fun a b => a < b) := by
  constructor
  · have hs : List.Pairwise (fun a b : Row => b.filename ≤ a.filename) (finalize_flat ts) :=
      List.sorted_insertionSort _ ts
    have hp : (finalize_flat ts).Perm ts :=
      List.perm_insertionSort _ ts
    have hnd : ((finalize_flat ts).map Row.filename).Nodup :=
      ((hp.map Row.filename).nodup_iff).mpr h
    have hne : List.Pairwise (fun a b : Row => a.filename ≠ b.filename) (finalize_flat ts) :=
      List.pairwise_map.mp hnd
    refine List.pairwise_map.mpr ?_
    exact (hs.and hne).imp (fun hab => lt_of_le_of_ne hab.1 (Ne.symm hab.2))
  · have hs : List.Pairwise (fun a b : Row => a.filename ≤ b.filename) (finalize_db ts) :=
      List.sorted_insertionSort _ ts
    have hp : (finalize_db ts).Perm ts :=
      List.perm_insertionSort _ ts
    have hnd : ((finalize_db ts).map Row.filename).Nodup :=
      ((hp.map Row.filename).nodup_iff).mpr h
    have hne : List.Pairwise (fun a b : Row => a.filename ≠ b.filename) (finalize_db ts) :=
      List.pairwise_map.mp hnd
    refine List.pairwise_map.mpr ?_
    exact (hs.and hne).imp (fun hab => lt_of_le_of_ne hab.1 hab.2)

/-- A minimal row with filename `"a.m4a"` for the spec's three-file test. -/
def rowA : Row :=
  { filename := "a.m4a".data, artist := none, title := none, date := none,
    genre := none, comment := none, waveform := [], cover := none,
    fileHash := [] }

/-- The same minimal row with filename `"b.m4a"`. -/
def rowB : Row := { rowA with filename := "b.m4a".data }

/-- The same minimal row with filename `"c.m4a"`. -/
def rowC : Row := { rowA with filename := "c.m4a".data }

/-- Witness for C8 at the spec's three filenames: the flat sink emits
`c, b, a` (strictly descending) and the relational sink `a, b, c`
(strictly ascending). -/
theorem C8_finalize_order_witness :
    (((finalize_flat [rowA, rowB, rowC]).map Row.filename).Pairwise
        (fun a b => b < a) ∧
      ((finalize_db [rowA, rowB, rowC]).map Row.filename).Pairwise
        (fun a b => a < b)) ∧
    (finalize_flat [rowA, rowB, rowC]).map Row.filename =
      ["c.m4a".data, "b.m4a".data, "a.m4a".data] ∧
    (finalize_db [rowA, rowB, rowC]).map Row.filename =
      ["a.m4a".data, "b.m4a".data, "c.m4a".data] := by
  refine ⟨C8_finalize_order [rowA, rowB, rowC] (by decide), ?_, ?_⟩
  · rfl
  · rfl
